import Mathlib

/-
Verification of the "Releases" view components of the sentry repository
fragment: the release detail utilities
(src/sentry/static/sentry/app/views/releases/detail/utils.tsx) and the
release list view component (ReleasesList).

JavaScript objects used as string-keyed dictionaries are modelled either as
insertion-ordered association lists (when key order or bucket order is
observable and relevant, as for commit grouping) or as extensional maps
`String → Option _` (for the file grouping, whose claims are about lookups
and multiset determinism). Mutation is modelled by explicit state passing:
each reduce-with-mutation becomes a List.foldl of a pure step function.
-/

namespace SentryReleases

/-- Model of the localization function `t` from app/locale: the claims are
insensitive to the actual translation catalog, so it is modelled as the
identity on the catalog key. -/
def t (key : String) : String := key

/-! ### Commit grouping (utils.tsx, getCommitsByRepository) -/

/-- Model of app/types Repository, restricted to the field read by the
grouping code. The TypeScript type declares `name : string`, but the code
guards with `?? `, which also catches a null name at runtime; the name is
therefore modelled as optional so that both absent-reference and
absent-name inputs are expressible. -/
structure Repository where
  name : Option String
deriving DecidableEq, Repr

/-- Model of app/types Commit restricted to what getCommitsByRepository
reads: the optional repository reference plus an identifier standing for
the rest of the passed-through commit payload, which the code never reads. -/
structure Commit where
  id : String
  repository : Option Repository
deriving DecidableEq, Repr

/-- JS object from repository name to ordered commit list, modelled as an
insertion-ordered association list (JS object keys preserve insertion
order, and the code appends to per-key arrays). -/
abbrev CommitsByRepository := List (String × List Commit)

/-- The key under which getCommitsByRepository buckets a commit:
`commit.repository?.name ?? t("unknown")`. -/
def commitBucketKey (commit : Commit) : String :=
  (commit.repository.bind Repository.name).getD (t "unknown")

/-- One step of the reduce in getCommitsByRepository: ensure the bucket
for the key exists (hasOwnProperty check), then push the commit onto it. -/
def addCommitToBuckets (commitsByRepository : CommitsByRepository) (commit : Commit) :
    CommitsByRepository :=
  let repositoryName := commitBucketKey commit
  if commitsByRepository.any (fun e => e.1 == repositoryName) then
    commitsByRepository.map
      (fun e => if e.1 == repositoryName then (e.1, e.2 ++ [commit]) else e)
  else
    commitsByRepository ++ [(repositoryName, [commit])]

/-- utils.tsx getCommitsByRepository: fold of the reduce step over the
commit list starting from the empty object. -/
def getCommitsByRepository (commitList : List Commit) : CommitsByRepository :=
  commitList.foldl addCommitToBuckets []

/-- Reading a bucket out of the grouped result: the value stored at the
key, or the empty list when the key is absent. -/
def bucketOf (m : CommitsByRepository) (key : String) : List Commit :=
  match m.find? (fun e => e.1 == key) with
  | some e => e.2
  | none => []

theorem bucketOf_addCommit (m : CommitsByRepository) (c : Commit) (k : String) :
    bucketOf (addCommitToBuckets m c) k =
      if commitBucketKey c == k then bucketOf m k ++ [c] else bucketOf m k := by
  unfold addCommitToBuckets bucketOf
  by_cases hmem : m.any (fun e => e.1 == commitBucketKey c)
  · -- the bucket already exists: the matching entry gets the commit appended
    simp only [hmem, if_true]
    rw [List.find?_map]
    have hcomp : ((fun e : String × List Commit => e.1 == k) ∘
        (fun e : String × List Commit =>
          if e.1 == commitBucketKey c then (e.1, e.2 ++ [c]) else e)) =
        fun e : String × List Commit => e.1 == k := by
      funext e
      by_cases h : e.1 = commitBucketKey c <;> simp [h]
    rw [hcomp]
    cases hfind : m.find? (fun e => e.1 == k) with
    | none =>
      by_cases hkc : commitBucketKey c == k
      · exfalso
        rcases List.any_eq_true.mp hmem with ⟨e, he, hpe⟩
        have h1 : e.1 = commitBucketKey c := by simpa using hpe
        have h2 : commitBucketKey c = k := by simpa using hkc
        have := List.find?_eq_none.mp hfind e he
        exact this (by simp [h1, h2])
      · simp [hkc]
    | some e =>
      have he := List.find?_some hfind
      by_cases hkc : commitBucketKey c == k
      · have hec : (e.1 == commitBucketKey c) = true := by
          have h1 : e.1 = k := by simpa using he
          have h2 : commitBucketKey c = k := by simpa using hkc
          simp [h1, h2]
        have hec' : e.1 = commitBucketKey c := by simpa using hec
        simp [Option.map_some, hec', hkc]
      · have hec' : ¬ e.1 = commitBucketKey c := by
          intro h1
          have h2 : e.1 = k := by simpa using he
          exact absurd (by simp [← h1, h2] : (commitBucketKey c == k) = true) hkc
        simp [Option.map_some, hec', hkc]
  · -- the bucket key is absent: a fresh bucket is appended at the end
    simp only [hmem, Bool.false_eq_true, if_false]
    rw [List.find?_append]
    by_cases hkc : commitBucketKey c == k
    · have hfind : m.find? (fun e => e.1 == k) = none := by
        rw [List.find?_eq_none]
        intro e he hpe
        refine hmem (List.any_eq_true.mpr ⟨e, he, ?_⟩)
        have h1 : e.1 = k := by simpa using hpe
        have h2 : commitBucketKey c = k := by simpa using hkc
        simp [h1, h2]
      have hfind0 : m.find? (fun e => e.1 == k) = none → bucketOf m k = [] := by
        intro h
        simp [bucketOf, h]
      simp [hfind, List.find?, hkc, hfind0 hfind, bucketOf]
    · cases hfind : m.find? (fun e => e.1 == k) with
      | some e => simp [hkc]
      | none => simp [List.find?, hkc]

theorem bucketOf_getCommits (commitList : List Commit) (k : String) :
    bucketOf (getCommitsByRepository commitList) k =
      commitList.filter (fun c => commitBucketKey c == k) := by
  unfold getCommitsByRepository
  induction commitList using List.reverseRecOn with
  | nil => simp [bucketOf, List.find?]
  | append_singleton l c ih =>
    rw [List.foldl_append, List.foldl_cons, List.foldl_nil, bucketOf_addCommit,
      List.filter_append]
    by_cases h : commitBucketKey c == k
    · simp [h, ih]
    · simp [h, ih]

theorem mem_bucketOf_getCommits (l : List Commit) (c : Commit) (k : String) :
    c ∈ bucketOf (getCommitsByRepository l) k ↔ commitBucketKey c = k ∧ c ∈ l := by
  rw [bucketOf_getCommits]
  simp only [List.mem_filter, beq_iff_eq]
  exact and_comm

/-- Claim C5: getCommitsByRepository preserves within-repository input
order — the bucket stored under any key is exactly the subsequence of
input commits whose bucket key (repository name, or the localized
"unknown" sentinel) is that key, in their original relative order. The
cited example follows: for input [c1(repoA), c2(repoB), c3(repoA)] the
repoA bucket is the filter [c1, c3]. -/
theorem getCommitsByRepository_preserves_within_repo_order
    (commitList : List Commit) (k : String) :
    bucketOf (getCommitsByRepository commitList) k =
      commitList.filter (fun c => commitBucketKey c == k) :=
  bucketOf_getCommits commitList k

/-- Claim C6: getCommitsByRepository is total — a commit lacking a
repository reference lands in the localized "unknown" sentinel bucket
(rather than being dropped or failing; the Lean embedding is a total
function), and every input commit is a member of the bucket at its key
and of no other bucket. -/
theorem getCommitsByRepository_total (l : List Commit) (c : Commit) (k : String)
    (hmem : c ∈ l) :
    (c.repository = none → c ∈ bucketOf (getCommitsByRepository l) (t "unknown"))
    ∧ (c ∈ bucketOf (getCommitsByRepository l) k ↔ k = commitBucketKey c) := by
  constructor
  · intro hnone
    exact (mem_bucketOf_getCommits l c (t "unknown")).mpr
      ⟨by simp [commitBucketKey, hnone], hmem⟩
  · rw [mem_bucketOf_getCommits]
    constructor
    · rintro ⟨hk, -⟩
      exact hk.symm
    · rintro rfl
      exact ⟨rfl, hmem⟩

/-- Witness for claim C6 at a concrete input: a single commit with no
repository reference lands in the sentinel bucket and only there. -/
theorem getCommitsByRepository_total_instance :
    Commit.mk "c0" none ∈ [Commit.mk "c0" none]
    ∧ ((Commit.mk "c0" none).repository = none →
        Commit.mk "c0" none ∈
          bucketOf (getCommitsByRepository [Commit.mk "c0" none]) (t "unknown"))
    ∧ (Commit.mk "c0" none ∈
          bucketOf (getCommitsByRepository [Commit.mk "c0" none]) (t "unknown") ↔
        t "unknown" = commitBucketKey (Commit.mk "c0" none)) :=
  ⟨by decide,
    (getCommitsByRepository_total [Commit.mk "c0" none] (Commit.mk "c0" none)
      (t "unknown") (by decide)).1,
    (getCommitsByRepository_total [Commit.mk "c0" none] (Commit.mk "c0" none)
      (t "unknown") (by decide)).2⟩

/-- A commit whose repository reference is present and whose repository
name is literally the localized sentinel string. -/
def collisionCommit : Commit :=
  ⟨"c1", some ⟨some (t "unknown")⟩⟩

/-- Counterexample to claim C10 as stated: the sentinel bucket is not
used only for commits whose repository reference or name is null or
absent — a commit whose actual repository name equals the localized
sentinel string has both present and still ends up in the sentinel
bucket, because the bucket is keyed by the string itself. -/
theorem getCommitsByRepository_sentinel_collision :
    collisionCommit.repository = some ⟨some (t "unknown")⟩
    ∧ collisionCommit ∈
        bucketOf (getCommitsByRepository [collisionCommit]) (t "unknown") := by
  decide

/-- Claim C10 (amended): a commit with a present repository reference and
a present name n is bucketed under n itself; in particular an
empty-string name goes to the empty-string bucket and not to the
sentinel bucket, and any member of the sentinel bucket either lacks the
repository reference or name, or its actual repository name is literally
the sentinel string. -/
theorem getCommitsByRepository_name_key (l : List Commit) (c d : Commit)
    (r : Repository) (n : String) :
    (c ∈ l → c.repository = some r → r.name = some n →
      c ∈ bucketOf (getCommitsByRepository l) n
      ∧ (n = "" → c ∉ bucketOf (getCommitsByRepository l) (t "unknown")))
    ∧ (d ∈ bucketOf (getCommitsByRepository l) (t "unknown") →
        d.repository.bind Repository.name = none
        ∨ d.repository.bind Repository.name = some (t "unknown")) := by
  constructor
  · intro hc hr hn
    have hkey : commitBucketKey c = n := by
      simp [commitBucketKey, hr, hn]
    refine ⟨(mem_bucketOf_getCommits l c n).mpr ⟨hkey, hc⟩, ?_⟩
    intro hempty habs
    have := ((mem_bucketOf_getCommits l c (t "unknown")).mp habs).1
    rw [hkey, hempty] at this
    exact absurd this (by decide)
  · intro hd
    have hdk := ((mem_bucketOf_getCommits l d (t "unknown")).mp hd).1
    unfold commitBucketKey at hdk
    cases hname : d.repository.bind Repository.name with
    | none => exact Or.inl rfl
    | some s =>
      rw [hname] at hdk
      simp only [Option.getD_some] at hdk
      exact Or.inr (by rw [hdk])

/-- Witness for the amended claim C10 at concrete inputs, exercising the
two parts independently: the empty-string-name part on the singleton
list [c0] (whose sentinel bucket is empty), and the sentinel-member part
on the singleton list [d0] with a repository-less commit. -/
theorem getCommitsByRepository_name_key_instance :
    (Commit.mk "c0" (some ⟨some ""⟩) ∈ [Commit.mk "c0" (some ⟨some ""⟩)]
      ∧ (Commit.mk "c0" (some ⟨some ""⟩)).repository = some ⟨some ""⟩
      ∧ (Repository.mk (some "")).name = some ""
      ∧ Commit.mk "d0" none ∈
          bucketOf (getCommitsByRepository [Commit.mk "d0" none]) (t "unknown"))
    ∧ (Commit.mk "c0" (some ⟨some ""⟩) ∈
        bucketOf (getCommitsByRepository [Commit.mk "c0" (some ⟨some ""⟩)]) ""
      ∧ ("" = "" →
          Commit.mk "c0" (some ⟨some ""⟩) ∉
            bucketOf (getCommitsByRepository [Commit.mk "c0" (some ⟨some ""⟩)])
              (t "unknown")))
    ∧ ((Commit.mk "d0" none).repository.bind Repository.name = none
        ∨ (Commit.mk "d0" none).repository.bind Repository.name =
            some (t "unknown")) :=
  ⟨⟨by decide, rfl, rfl, by decide⟩,
    (getCommitsByRepository_name_key [Commit.mk "c0" (some ⟨some ""⟩)]
      (Commit.mk "c0" (some ⟨some ""⟩)) (Commit.mk "d0" none)
      (Repository.mk (some "")) "").1 (by decide) rfl rfl,
    (getCommitsByRepository_name_key [Commit.mk "d0" none]
      (Commit.mk "c0" (some ⟨some ""⟩)) (Commit.mk "d0" none)
      (Repository.mk (some "")) "").2 (by decide)⟩

/-! ### File grouping (utils.tsx, getFilesByRepository) -/

/-- Model of the commit author (app/types User) restricted to the fields
relevant here: the email used as the author-map key, and one further
field standing for the rest of the record (so that "last write wins" is
observable). -/
structure Author where
  email : String
  name : String
deriving DecidableEq, Repr

/-- Model of app/types CommitFile restricted to the fields read by
getFilesByRepository. -/
structure CommitFile where
  filename : String
  repoName : String
  author : Author
  type : String
deriving DecidableEq, Repr

/-- The per-file summary: author map keyed by email and the set of change
types. The JS object and Set are modelled extensionally, as a map into Option
and a membership function (the claims about this structure concern
lookups and multiset determinism, not key iteration order). -/
@[ext] structure FileEntry where
  authors : String → Option Author
  types : String → Bool

/-- Per-repository map from filename to its summary. -/
abbrev RepoFiles := String → Option FileEntry

/-- app/types FilesByRepository: map from repository name to RepoFiles. -/
abbrev FilesByRepository := String → Option RepoFiles

/-- The fresh per-file entry: `{authors: {}, types: new Set()}`. -/
def emptyFileEntry : FileEntry :=
  { authors := fun _ => none, types := fun _ => false }

/-- The per-file part of one reduce step: insert the author keyed by
email when the email is truthy (non-empty, overwriting any previous
author under that email), and add the change type to the type set. -/
def updateFileEntry (entry : FileEntry) (file : CommitFile) : FileEntry :=
  let entry1 : FileEntry :=
    if file.author.email ≠ "" then
      { entry with
          authors := fun e =>
            if e = file.author.email then some file.author else entry.authors e }
    else entry
  { entry1 with types := fun ty => ty == file.type || entry1.types ty }

/-- One step of the reduce in getFilesByRepository: ensure the repository
bucket and the per-file entry exist (hasOwnProperty checks backed by
empty defaults), then update the per-file entry. -/
def processFile (filesByRepository : FilesByRepository) (file : CommitFile) :
    FilesByRepository :=
  let repoFiles : RepoFiles := (filesByRepository file.repoName).getD (fun _ => none)
  let entry2 : FileEntry :=
    updateFileEntry ((repoFiles file.filename).getD emptyFileEntry) file
  fun r =>
    if r = file.repoName then
      some (fun fn => if fn = file.filename then some entry2 else repoFiles fn)
    else filesByRepository r

/-- utils.tsx getFilesByRepository: fold of the reduce step over the file
change list starting from the empty object. -/
def getFilesByRepository (fileList : List CommitFile) : FilesByRepository :=
  fileList.foldl processFile (fun _ => none)

/-- The last element of a list satisfying a predicate, if any (later
elements take precedence, matching last-write-wins object assignment). -/
def findLast (p : α → Bool) (l : List α) : Option α :=
  l.foldl (fun acc x => if p x then some x else acc) none

theorem findLast_append_single (p : α → Bool) (l : List α) (x : α) :
    findLast p (l ++ [x]) = if p x then some x else findLast p l := by
  simp [findLast, List.foldl_append]

theorem findLast_eq_some (p : α → Bool) (l : List α) (x : α)
    (h : findLast p l = some x) : x ∈ l ∧ p x = true := by
  induction l using List.reverseRecOn with
  | nil => simp [findLast] at h
  | append_singleton as a ih =>
    rw [findLast_append_single] at h
    by_cases hpa : p a = true
    · rw [if_pos hpa] at h
      cases h
      exact ⟨List.mem_append_right _ (List.mem_singleton_self _), hpa⟩
    · rw [if_neg hpa] at h
      obtain ⟨hmem, hp⟩ := ih h
      exact ⟨List.mem_append_left [a] hmem, hp⟩

theorem findLast_eq_none (p : α → Bool) (l : List α) :
    findLast p l = none ↔ ∀ x ∈ l, p x = false := by
  induction l using List.reverseRecOn with
  | nil => simp [findLast]
  | append_singleton as a ih =>
    rw [findLast_append_single]
    by_cases hpa : p a = true
    · simp only [if_pos hpa]
      constructor
      · intro h
        cases h
      · intro h
        have := h a (List.mem_append_right as (List.mem_singleton_self a))
        rw [hpa] at this
        cases this
    · simp only [if_neg hpa, ih]
      constructor
      · intro h x hx
        rcases List.mem_append.mp hx with hx | hx
        · exact h x hx
        · rcases List.mem_singleton.mp hx with rfl
          simpa using hpa
      · intro h x hx
        exact h x (List.mem_append_left [a] hx)

theorem any_mono (p q : α → Bool) (l : List α) (himp : ∀ x, p x = true → q x = true)
    (h : l.any q = false) : l.any p = false := by
  rw [List.any_eq_false] at h ⊢
  intro x hx hpx
  exact h x hx (himp x hpx)

theorem findLast_eq_none_of_any (p q : α → Bool) (l : List α)
    (himp : ∀ x, p x = true → q x = true) (h : l.any q = false) :
    findLast p l = none := by
  rw [findLast_eq_none]
  intro x hx
  have := List.any_eq_false.mp h x hx
  cases hpx : p x with
  | false => rfl
  | true => exact absurd (himp x hpx) (by simpa using this)

theorem perm_any (p : α → Bool) (l l' : List α) (h : l.Perm l') :
    l.any p = l'.any p := by
  rw [Bool.eq_iff_iff, List.any_eq_true, List.any_eq_true]
  constructor
  · rintro ⟨x, hx, hpx⟩
    exact ⟨x, h.mem_iff.mp hx, hpx⟩
  · rintro ⟨x, hx, hpx⟩
    exact ⟨x, h.mem_iff.mpr hx, hpx⟩

/-- A file change matching a repository bucket. -/
def repoPred (r : String) (f : CommitFile) : Bool :=
  f.repoName == r

/-- A file change matching a repository bucket and a filename. -/
def filePred (r fn : String) (f : CommitFile) : Bool :=
  f.repoName == r && f.filename == fn

/-- A file change matching a repository, filename and author email. -/
def authorPred (r fn e : String) (f : CommitFile) : Bool :=
  f.repoName == r && f.filename == fn && f.author.email == e

/-- A file change matching a repository, filename and change type. -/
def typePred (r fn ty : String) (f : CommitFile) : Bool :=
  f.repoName == r && f.filename == fn && f.type == ty

/-- Declarative description of a per-file entry, following the spec text:
authors keyed by non-empty email with the last matching write winning,
types holding exactly the change types seen for that file. -/
def canonicalEntry (l : List CommitFile) (r fn : String) : FileEntry :=
  { authors := fun e =>
      if e = "" then none
      else (findLast (authorPred r fn e) l).map CommitFile.author,
    types := fun ty => l.any (typePred r fn ty) }

/-- Declarative description of a repository bucket: an entry exists
exactly for the filenames seen for that repository. -/
def canonicalRepo (l : List CommitFile) (r : String) : RepoFiles :=
  fun fn => if l.any (filePred r fn) then some (canonicalEntry l r fn) else none

/-- Declarative description of the whole grouping, following the spec
text; compared against the fold getFilesByRepository by refinement. -/
def filesCanonical (l : List CommitFile) : FilesByRepository :=
  fun r => if l.any (repoPred r) then some (canonicalRepo l r) else none

/-- Looking up a per-file entry through both map layers. -/
def entryAt (m : FilesByRepository) (r fn : String) : Option FileEntry :=
  (m r).bind (fun b => b fn)

/-- Looking up an author in a per-file entry through all layers. -/
def authorAt (m : FilesByRepository) (r fn e : String) : Option Author :=
  (entryAt m r fn).bind (fun en => en.authors e)

/-- Membership of a change type in a per-file entry through all layers. -/
def typeAt (m : FilesByRepository) (r fn ty : String) : Bool :=
  ((entryAt m r fn).map (fun en => en.types ty)).getD false

theorem filePred_of_authorPred (r fn e : String) (x : CommitFile)
    (h : authorPred r fn e x = true) : filePred r fn x = true := by
  simp only [authorPred, Bool.and_eq_true] at h
  simp only [filePred, Bool.and_eq_true]
  exact h.1

theorem filePred_of_typePred (r fn ty : String) (x : CommitFile)
    (h : typePred r fn ty x = true) : filePred r fn x = true := by
  simp only [typePred, Bool.and_eq_true] at h
  simp only [filePred, Bool.and_eq_true]
  exact h.1

theorem repoPred_of_filePred (r fn : String) (x : CommitFile)
    (h : filePred r fn x = true) : repoPred r x = true := by
  simp only [filePred, Bool.and_eq_true] at h
  exact h.1

theorem getD_none_apply (m : FilesByRepository) (r fn : String) :
    ((m r).getD (fun _ => none)) fn = entryAt m r fn := by
  cases h : m r with
  | none => simp [entryAt, h]
  | some b => simp [entryAt, h]

theorem updateFileEntry_authors (entry : FileEntry) (f : CommitFile) :
    (updateFileEntry entry f).authors = fun e =>
      if f.author.email ≠ "" ∧ e = f.author.email then some f.author
      else entry.authors e := by
  unfold updateFileEntry
  by_cases hem : f.author.email ≠ ""
  · rw [if_pos hem]
    funext e
    by_cases he : e = f.author.email
    · simp [he, hem]
    · simp [he]
  · rw [if_neg hem]
    funext e
    simp [hem]

theorem updateFileEntry_types (entry : FileEntry) (f : CommitFile) :
    (updateFileEntry entry f).types = fun ty => ty == f.type || entry.types ty := by
  unfold updateFileEntry
  by_cases hem : f.author.email ≠ ""
  · rw [if_pos hem]
  · rw [if_neg hem]

theorem entryAt_processFile (m : FilesByRepository) (f : CommitFile) (r fn : String) :
    entryAt (processFile m f) r fn =
      if r = f.repoName ∧ fn = f.filename then
        some (updateFileEntry
          ((entryAt m f.repoName f.filename).getD emptyFileEntry) f)
      else entryAt m r fn := by
  by_cases hr : r = f.repoName
  · subst hr
    by_cases hfn : fn = f.filename
    · subst hfn
      simp [entryAt, processFile, getD_none_apply]
    · simp [entryAt, processFile, getD_none_apply, hfn]
  · simp [entryAt, processFile, hr]

theorem isSome_processFile (m : FilesByRepository) (f : CommitFile) (r : String) :
    (processFile m f r).isSome = if r = f.repoName then true else (m r).isSome := by
  by_cases hr : r = f.repoName
  · simp [processFile, hr]
  · simp [processFile, hr]

theorem canonicalEntry_of_no_match (l : List CommitFile) (r fn : String)
    (h : l.any (filePred r fn) = false) : canonicalEntry l r fn = emptyFileEntry := by
  ext1
  · funext e
    by_cases he : e = ""
    · simp [canonicalEntry, emptyFileEntry, he]
    · have hnone : findLast (authorPred r fn e) l = none :=
        findLast_eq_none_of_any _ _ l (filePred_of_authorPred r fn e) h
      simp [canonicalEntry, emptyFileEntry, he, hnone]
  · funext ty
    have := any_mono (typePred r fn ty) (filePred r fn) l (filePred_of_typePred r fn ty) h
    simp [canonicalEntry, emptyFileEntry, this]

theorem canonicalEntry_append_other (l : List CommitFile) (f : CommitFile)
    (r fn : String) (h : filePred r fn f = false) :
    canonicalEntry (l ++ [f]) r fn = canonicalEntry l r fn := by
  have hprop : ¬ (f.repoName = r ∧ f.filename = fn) := by
    simpa [filePred] using h
  ext1
  · funext e
    by_cases he : e = ""
    · simp [canonicalEntry, he]
    · have hpf : authorPred r fn e f = false := by
        rw [Bool.eq_false_iff]
        simp only [authorPred, Bool.and_eq_true, beq_iff_eq, ne_eq]
        rintro ⟨⟨ha, hb⟩, -⟩
        exact hprop ⟨ha, hb⟩
      simp [canonicalEntry, he, findLast_append_single, hpf]
  · funext ty
    have hpf : typePred r fn ty f = false := by
      rw [Bool.eq_false_iff]
      simp only [typePred, Bool.and_eq_true, beq_iff_eq, ne_eq]
      rintro ⟨⟨ha, hb⟩, -⟩
      exact hprop ⟨ha, hb⟩
    simp [canonicalEntry, List.any_append, hpf]

theorem updateFileEntry_canonical (l : List CommitFile) (f : CommitFile) :
    updateFileEntry (canonicalEntry l f.repoName f.filename) f =
      canonicalEntry (l ++ [f]) f.repoName f.filename := by
  ext1
  · rw [updateFileEntry_authors]
    funext e
    by_cases hcond : f.author.email ≠ "" ∧ e = f.author.email
    · obtain ⟨hem, he⟩ := hcond
      rw [if_pos ⟨hem, he⟩]
      have he0 : ¬ e = "" := by
        rw [he]
        exact hem
      have hpf : authorPred f.repoName f.filename e f = true := by
        simp [authorPred, he]
      simp [canonicalEntry, he0, findLast_append_single, hpf]
    · rw [if_neg hcond]
      by_cases he0 : e = ""
      · simp [canonicalEntry, he0]
      · have hpf : authorPred f.repoName f.filename e f = false := by
          rw [Bool.eq_false_iff]
          simp only [authorPred, Bool.and_eq_true, beq_iff_eq, ne_eq]
          rintro ⟨⟨-, -⟩, hc⟩
          rcases Decidable.not_and_iff_or_not.mp hcond with h1 | h1
          · rw [not_not] at h1
            rw [h1] at hc
            exact he0 hc.symm
          · exact h1 hc.symm
        simp [canonicalEntry, he0, findLast_append_single, hpf]
  · rw [updateFileEntry_types]
    funext ty
    have hpf : typePred f.repoName f.filename ty f = (f.type == ty) := by
      simp [typePred]
    have hcomm : (ty == f.type) = (f.type == ty) := by
      rw [Bool.eq_iff_iff]
      simp only [beq_iff_eq]
      exact eq_comm
    simp only [canonicalEntry, List.any_append, List.any_cons, List.any_nil,
      hpf, Bool.or_false]
    rw [hcomm, Bool.or_comm]

theorem entryAt_getFiles (l : List CommitFile) (r fn : String) :
    entryAt (getFilesByRepository l) r fn = canonicalRepo l r fn := by
  induction l using List.reverseRecOn with
  | nil =>
    simp [getFilesByRepository, entryAt, canonicalRepo]
  | append_singleton as f ih =>
    rw [getFilesByRepository, List.foldl_append, List.foldl_cons, List.foldl_nil]
    rw [show List.foldl processFile (fun _ => none) as = getFilesByRepository as from rfl]
    rw [entryAt_processFile]
    by_cases hmatch : r = f.repoName ∧ fn = f.filename
    · obtain ⟨hr, hfn⟩ := hmatch
      subst hr
      subst hfn
      rw [if_pos ⟨rfl, rfl⟩, ih]
      have hany : (as ++ [f]).any (filePred f.repoName f.filename) = true := by
        rw [List.any_append]
        simp [filePred]
      simp only [canonicalRepo]
      rw [if_pos hany]
      by_cases has : as.any (filePred f.repoName f.filename) = true
      · rw [if_pos has, Option.getD_some, updateFileEntry_canonical]
      · rw [if_neg has, Option.getD_none]
        rw [← canonicalEntry_of_no_match as f.repoName f.filename
          (Bool.eq_false_iff.mpr has)]
        rw [updateFileEntry_canonical]
    · rw [if_neg hmatch, ih]
      have hpf : filePred r fn f = false := by
        rw [Bool.eq_false_iff]
        simp only [filePred, Bool.and_eq_true, beq_iff_eq, ne_eq]
        rintro ⟨ha, hb⟩
        exact hmatch ⟨ha.symm, hb.symm⟩
      simp only [canonicalRepo]
      rw [List.any_append]
      simp only [List.any_cons, List.any_nil, hpf, Bool.or_false]
      by_cases hany : as.any (filePred r fn) = true
      · rw [if_pos hany, if_pos hany, canonicalEntry_append_other as f r fn hpf]
      · rw [if_neg hany, if_neg hany]

theorem isSome_getFiles (l : List CommitFile) (r : String) :
    (getFilesByRepository l r).isSome = l.any (repoPred r) := by
  induction l using List.reverseRecOn with
  | nil => simp [getFilesByRepository]
  | append_singleton as f ih =>
    rw [getFilesByRepository, List.foldl_append, List.foldl_cons, List.foldl_nil]
    rw [show List.foldl processFile (fun _ => none) as = getFilesByRepository as from rfl]
    rw [isSome_processFile, List.any_append]
    by_cases hr : r = f.repoName
    · simp [hr, repoPred]
    · have hfalse : repoPred r f = false := by
        rw [Bool.eq_false_iff]
        simp only [repoPred, beq_iff_eq, ne_eq]
        exact fun h => hr h.symm
      simp [hr, ih, hfalse]

theorem getFiles_eq_canonical (l : List CommitFile) :
    getFilesByRepository l = filesCanonical l := by
  funext r
  cases hany : l.any (repoPred r) with
  | false =>
    have h2 : (getFilesByRepository l r).isSome = false := by
      rw [isSome_getFiles, hany]
    have h1 : getFilesByRepository l r = none :=
      Option.not_isSome_iff_eq_none.mp (by simp [h2])
    rw [h1, filesCanonical]
    rw [if_neg (by simp [hany])]
  | true =>
    obtain ⟨b, hb⟩ := Option.isSome_iff_exists.mp (by rw [isSome_getFiles, hany])
    rw [hb, filesCanonical, if_pos hany]
    congr 1
    funext fn
    have hfn := entryAt_getFiles l r fn
    rw [entryAt, hb, Option.some_bind] at hfn
    exact hfn

/-- Claim C7: for every input list, getFilesByRepository ensures a
bucket for each seen repository and a per-file entry for each seen
(repository, filename) pair; the per-file author map holds, under each
non-empty email, the author of the last input change on that file with
that email (insert/overwrite keyed by email, last write wins, empty
emails never inserted — so with no matching input the lookup is none,
i.e. the entry starts from the empty author map); the per-file type set
holds exactly the change types seen for that file (always added). -/
theorem getFilesByRepository_groups_files (fl : List CommitFile) (r fn e ty : String) :
    (getFilesByRepository fl r).isSome = fl.any (repoPred r)
    ∧ (entryAt (getFilesByRepository fl) r fn).isSome = fl.any (filePred r fn)
    ∧ authorAt (getFilesByRepository fl) r fn e =
        (if e = "" then none
         else (findLast (authorPred r fn e) fl).map CommitFile.author)
    ∧ typeAt (getFilesByRepository fl) r fn ty = fl.any (typePred r fn ty) := by
  refine ⟨isSome_getFiles fl r, ?_, ?_, ?_⟩
  · rw [entryAt_getFiles]
    unfold canonicalRepo
    by_cases hany : fl.any (filePred r fn) = true
    · rw [if_pos hany, hany]
      simp
    · have hfalse := Bool.eq_false_iff.mpr hany
      rw [if_neg hany, hfalse]
      simp
  · unfold authorAt
    rw [entryAt_getFiles]
    unfold canonicalRepo
    by_cases hany : fl.any (filePred r fn) = true
    · rw [if_pos hany, Option.some_bind]
      rfl
    · rw [if_neg hany, Option.none_bind]
      by_cases he : e = ""
      · rw [if_pos he]
      · rw [if_neg he]
        have hnone : findLast (authorPred r fn e) fl = none :=
          findLast_eq_none_of_any _ _ fl (filePred_of_authorPred r fn e)
            (Bool.eq_false_iff.mpr hany)
        rw [hnone]
        rfl
  · unfold typeAt
    rw [entryAt_getFiles]
    unfold canonicalRepo
    by_cases hany : fl.any (filePred r fn) = true
    · rw [if_pos hany]
      simp [canonicalEntry]
    · rw [if_neg hany]
      have hz := any_mono (typePred r fn ty) (filePred r fn) fl
        (filePred_of_typePred r fn ty) (Bool.eq_false_iff.mpr hany)
      simp [hz]

/-- A file change by Alice on index.js in repoA. -/
def fcAlice : CommitFile :=
  ⟨"index.js", "repoA", ⟨"dev@example.com", "Alice"⟩, "M"⟩

/-- A file change by Bob on the same file, whose author shares the email
with fcAlice but differs in the name field. -/
def fcBob : CommitFile :=
  ⟨"index.js", "repoA", ⟨"dev@example.com", "Bob"⟩, "A"⟩

/-- A file change by Carol on the same file with a distinct email. -/
def fcCarol : CommitFile :=
  ⟨"index.js", "repoA", ⟨"carol@example.com", "Carol"⟩, "D"⟩

/-- Counterexample to claim C8 as stated: getFilesByRepository is not
order-independent for all inputs — two changes on the same file whose
authors share an email but differ in other fields make the author map
depend on arrival order (last write wins), so the two permutations of
[fcAlice, fcBob] yield different results. -/
theorem getFilesByRepository_order_dependent :
    List.Perm [fcAlice, fcBob] [fcBob, fcAlice]
    ∧ getFilesByRepository [fcAlice, fcBob] ≠ getFilesByRepository [fcBob, fcAlice] := by
  refine ⟨List.Perm.swap _ _ _, fun h => ?_⟩
  have h2 : authorAt (getFilesByRepository [fcAlice, fcBob])
        "repoA" "index.js" "dev@example.com" =
      authorAt (getFilesByRepository [fcBob, fcAlice])
        "repoA" "index.js" "dev@example.com" := by
    rw [h]
  have e1 : authorAt (getFilesByRepository [fcAlice, fcBob])
      "repoA" "index.js" "dev@example.com" = some ⟨"dev@example.com", "Bob"⟩ := by
    decide
  have e2 : authorAt (getFilesByRepository [fcBob, fcAlice])
      "repoA" "index.js" "dev@example.com" = some ⟨"dev@example.com", "Alice"⟩ := by
    decide
  rw [e1, e2] at h2
  exact absurd h2 (by decide)

theorem findLast_authorPred_perm (l l' : List CommitFile) (r fn e : String)
    (hagree : ∀ f ∈ l, ∀ g ∈ l, f.repoName = g.repoName → f.filename = g.filename →
      f.author.email = g.author.email → f.author = g.author)
    (hperm : l.Perm l') :
    (findLast (authorPred r fn e) l).map CommitFile.author =
      (findLast (authorPred r fn e) l').map CommitFile.author := by
  cases hx : findLast (authorPred r fn e) l with
  | none =>
    cases hy : findLast (authorPred r fn e) l' with
    | none => rfl
    | some y =>
      obtain ⟨hmem, hp⟩ := findLast_eq_some _ _ _ hy
      have hfalse : authorPred r fn e y = false :=
        (findLast_eq_none _ _).mp hx y (hperm.mem_iff.mpr hmem)
      rw [hp] at hfalse
      cases hfalse
  | some x =>
    obtain ⟨hxm, hpx⟩ := findLast_eq_some _ _ _ hx
    cases hy : findLast (authorPred r fn e) l' with
    | none =>
      have hfalse : authorPred r fn e x = false :=
        (findLast_eq_none _ _).mp hy x (hperm.mem_iff.mp hxm)
      rw [hpx] at hfalse
      cases hfalse
    | some y =>
      obtain ⟨hym, hpy⟩ := findLast_eq_some _ _ _ hy
      have hym' : y ∈ l := hperm.mem_iff.mpr hym
      simp only [authorPred, Bool.and_eq_true, beq_iff_eq] at hpx hpy
      obtain ⟨⟨hxr, hxf⟩, hxe⟩ := hpx
      obtain ⟨⟨hyr, hyf⟩, hye⟩ := hpy
      have heq := hagree x hxm y hym' (by rw [hxr, hyr]) (by rw [hxf, hyf])
        (by rw [hxe, hye])
      simp [heq]

/-- Claim C8 (amended): getFilesByRepository is order-independent for
inputs in which any two changes on the same repository and file whose
authors share an email carry equal author records — under that
functional-dependency condition the result depends only on the multiset
of inputs; without it, same-email authors differing in other fields make
the result order-dependent (last write wins). -/
theorem getFilesByRepository_perm_invariant (l l' : List CommitFile)
    (hagree : ∀ f ∈ l, ∀ g ∈ l, f.repoName = g.repoName → f.filename = g.filename →
      f.author.email = g.author.email → f.author = g.author)
    (hperm : l.Perm l') :
    getFilesByRepository l = getFilesByRepository l' := by
  rw [getFiles_eq_canonical, getFiles_eq_canonical]
  funext r
  unfold filesCanonical
  rw [perm_any (repoPred r) l l' hperm]
  by_cases hany : l'.any (repoPred r) = true
  · rw [if_pos hany, if_pos hany]
    congr 1
    funext fn
    unfold canonicalRepo
    rw [perm_any (filePred r fn) l l' hperm]
    by_cases hfn : l'.any (filePred r fn) = true
    · rw [if_pos hfn, if_pos hfn]
      congr 1
      ext1
      · funext e
        by_cases he : e = ""
        · simp [canonicalEntry, he]
        · simp only [canonicalEntry, if_neg he]
          exact findLast_authorPred_perm l l' r fn e hagree hperm
      · funext ty
        simp only [canonicalEntry]
        exact perm_any (typePred r fn ty) l l' hperm
    · rw [if_neg hfn, if_neg hfn]
  · rw [if_neg hany, if_neg hany]

/-- Witness for the amended claim C8 at a concrete input: two changes on
the same file with distinct emails may be swapped without changing the
result. -/
theorem getFilesByRepository_perm_invariant_instance :
    (∀ f ∈ [fcAlice, fcCarol], ∀ g ∈ [fcAlice, fcCarol],
        f.repoName = g.repoName → f.filename = g.filename →
        f.author.email = g.author.email → f.author = g.author)
    ∧ List.Perm [fcAlice, fcCarol] [fcCarol, fcAlice]
    ∧ getFilesByRepository [fcAlice, fcCarol] =
        getFilesByRepository [fcCarol, fcAlice] :=
  ⟨by decide, List.Perm.swap _ _ _,
    getFilesByRepository_perm_invariant _ _ (by decide) (List.Perm.swap _ _ _)⟩

/-! ### Archive operation (utils.tsx, archiveRelease) -/

/-- Release status values posted by the archive/restore calls
(app/types ReleaseStatus). -/
inductive ReleaseStatus
  | archived
  | active
deriving DecidableEq, Repr

/-- Body of the status-update POST issued by archiveRelease. -/
structure PostBody where
  status : ReleaseStatus
  projects : List String
  version : String
deriving DecidableEq, Repr

/-- Observable side effects of the archive flow, in order: the loading
toast, the API request, then either the success toast and navigation or
the error toast. -/
inductive Effect
  | loadingMessage (msg : String)
  | apiPost (url : String) (body : PostBody)
  | successMessage (msg : String)
  | errorMessage (msg : String)
  | navigate (url : String)
deriving DecidableEq, Repr

/-- The JSON body attached to a failed response, as read by the catch
block: `error.responseJSON?.detail`. -/
structure ErrorResponse where
  detail : Option String
deriving DecidableEq, Repr

/-- Outcome of the awaited api.requestPromise call: resolution, or
rejection carrying an optional parsed response body. -/
inductive ApiOutcome
  | success
  | failure (responseJSON : Option ErrorResponse)
deriving DecidableEq, Repr

/-- utils.tsx archiveRelease, as a function from the request outcome to
the ordered list of observable effects: loading toast, a single POST of
{status: archived, projects: [], version}; on resolution a success toast
and navigation to the organization releases page; on rejection an error
toast whose text is responseJSON?.detail ?? the generic fallback. -/
def archiveRelease (orgId version : String) (outcome : ApiOutcome) : List Effect :=
  [Effect.loadingMessage (t "Archiving Release..."),
   Effect.apiPost ("/organizations/" ++ orgId ++ "/releases/")
     ⟨ReleaseStatus.archived, [], version⟩] ++
  match outcome with
  | ApiOutcome.success =>
      [Effect.successMessage (t "Release was successfully archived."),
       Effect.navigate ("/organizations/" ++ orgId ++ "/releases/")]
  | ApiOutcome.failure rj =>
      [Effect.errorMessage
        ((rj.bind ErrorResponse.detail).getD (t "Release could not be be archived."))]

/-- The visible error messages among a list of effects. -/
def errorMessagesOf (effects : List Effect) : List String :=
  effects.filterMap fun eff =>
    match eff with
    | Effect.errorMessage m => some m
    | _ => none

/-- The visible success messages among a list of effects. -/
def successMessagesOf (effects : List Effect) : List String :=
  effects.filterMap fun eff =>
    match eff with
    | Effect.successMessage m => some m
    | _ => none

/-- The navigations among a list of effects. -/
def navigationsOf (effects : List Effect) : List String :=
  effects.filterMap fun eff =>
    match eff with
    | Effect.navigate u => some u
    | _ => none

/-- The number of API requests among a list of effects. -/
def requestCountOf (effects : List Effect) : Nat :=
  (effects.filterMap fun eff =>
    match eff with
    | Effect.apiPost u b => some (u, b)
    | _ => none).length

/-- Claim C9: archiveRelease on a failure whose body carries detail "x"
shows exactly the error message "x"; on a failure with no body or no
detail field it shows the generic localized fallback; on success it
shows the success toast and navigates to the organization releases page
and shows no error; and in every outcome exactly one API request is
made (no retry). -/
theorem archiveRelease_effects (orgId version x : String) (outcome : ApiOutcome) :
    errorMessagesOf (archiveRelease orgId version
        (ApiOutcome.failure (some ⟨some x⟩))) = [x]
    ∧ errorMessagesOf (archiveRelease orgId version (ApiOutcome.failure none)) =
        [t "Release could not be be archived."]
    ∧ errorMessagesOf (archiveRelease orgId version
        (ApiOutcome.failure (some ⟨none⟩))) =
        [t "Release could not be be archived."]
    ∧ successMessagesOf (archiveRelease orgId version ApiOutcome.success) =
        [t "Release was successfully archived."]
    ∧ navigationsOf (archiveRelease orgId version ApiOutcome.success) =
        ["/organizations/" ++ orgId ++ "/releases/"]
    ∧ errorMessagesOf (archiveRelease orgId version ApiOutcome.success) = []
    ∧ requestCountOf (archiveRelease orgId version outcome) = 1 := by
  refine ⟨rfl, rfl, rfl, rfl, rfl, rfl, ?_⟩
  cases outcome <;> rfl

/-! ### Dual-source release loader (ReleasesList) -/

/-- The component state of ReleasesList, generic in the release payload
type (the Release records are a backend payload the loader only passes
through without reading). Fields mirror the AsyncView state the component reads
and writes: the committed releases, the loadingHealth flag, the generic
loading/reloading flags, the pagination Link header, and the count of
outstanding requests of the current navigation. -/
structure ReleasesState (α : Type) where
  releases : α
  loadingHealth : Bool
  loading : Bool
  reloading : Bool
  releasesPageLinks : Option String
  remainingRequests : Nat
deriving DecidableEq, Repr

/-- ReleasesList.onRequestSuccess: commit the arriving payload as the
authoritative state exactly when the guard
`stateKey == "releasesWithHealth" || remainingRequests == 1` holds;
the committed state clears reloading and loading, sets loadingHealth
when the committed response is the list-only one, and stores the data
and the Link header. -/
def onRequestSuccess {α : Type} (st : ReleasesState α) (stateKey : String)
    (data : α) (link : Option String) : ReleasesState α :=
  if stateKey = "releasesWithHealth" ∨ st.remainingRequests = 1 then
    { st with
        reloading := false
        loading := false
        loadingHealth := stateKey == "releasesWithoutHealth"
        releases := data
        releasesPageLinks := link }
  else st

/-- Modelled from the spec: the hosting AsyncView base class
(app/views/asyncView, not among the provided sources) performs the
per-navigation request bookkeeping — it tracks the number of
outstanding requests in state.remainingRequests and decrements the
counter as each response is handled, before invoking the view hook
onRequestSuccess, so the hook observes the number of requests still
outstanding after this arrival. The spec scenario table (section 8)
fixes this ordering: with two requests issued, a list-only response
arriving first commits provisionally (so the hook must see
remainingRequests = 1 there), and a list-only response arriving after
the health response does not commit (so the hook must see 0 there). -/
def handleRequestSuccess {α : Type} (st : ReleasesState α) (stateKey : String)
    (data : α) (link : Option String) : ReleasesState α :=
  onRequestSuccess { st with remainingRequests := st.remainingRequests - 1 }
    stateKey data link

/-- ReleasesList.getSort: the sort query parameter when it is a string,
"date" otherwise. -/
def getSort (sortParam : Option String) : String :=
  match sortParam with
  | some s => s
  | none => "date"

/-- ReleasesList.getQuery: the search query parameter when it is a
string, undefined otherwise. -/
def getQuery (queryParam : Option String) : Option String :=
  queryParam

/-- The claim-relevant fields of the release-list request query built by
getEndpoints: per_page, the health flag and the flatten flag (the
remaining fields are pass-throughs of location query parameters and the
stats period, not touched by any claim). -/
structure ReleaseQuery where
  per_page : Nat
  health : Nat
  flatten : Nat
deriving DecidableEq, Repr

/-- One endpoint request descriptor: AsyncView state key, URL, query. -/
structure Endpoint where
  stateKey : String
  url : String
  query : ReleaseQuery
deriving DecidableEq, Repr

/-- ReleasesList.getEndpoints: one releasesWithHealth request with
health=1 and flatten = 0 iff sorting by date; when sorting by date, a
second releasesWithoutHealth request with the same query except
health=0. -/
def getEndpoints (orgSlug : String) (sortParam : Option String) : List Endpoint :=
  let sort := getSort sortParam
  let query : ReleaseQuery :=
    { per_page := 25
      health := 1
      flatten := if sort = "date" then 0 else 1 }
  let endpoints : List Endpoint :=
    [⟨"releasesWithHealth", "/organizations/" ++ orgSlug ++ "/releases/", query⟩]
  if sort = "date" then
    endpoints ++
      [⟨"releasesWithoutHealth", "/organizations/" ++ orgSlug ++ "/releases/",
        { query with health := 0 }⟩]
  else endpoints

/-- The state at the start of a dual-request navigation (sort by date):
loading, not reloading, two outstanding requests, carrying some previous
payload and loadingHealth value. -/
def dualStart {α : Type} (d0 : α) (lh0 : Bool) : ReleasesState α :=
  { releases := d0
    loadingHealth := lh0
    loading := true
    reloading := false
    releasesPageLinks := none
    remainingRequests := 2 }

/-- Counterexample to claim C1 as stated: commitment is not equivalent
to "the response is health-bearing or is the last outstanding request".
Starting a dual-request navigation (payload 0): the list-only response
arriving first (two outstanding, so not the last, and not
health-bearing) does commit its payload 2 with loadingHealth set; while
after the health response has arrived and committed payload 1, the
list-only response (now the only outstanding request, hence the last)
does not commit its payload 2. -/
theorem onRequestSuccess_not_last_outstanding_iff :
    (dualStart (α := Nat) 0 false).remainingRequests = 2
    ∧ (handleRequestSuccess (dualStart 0 false) "releasesWithoutHealth" 2 none).releases = 2
    ∧ (handleRequestSuccess (dualStart 0 false) "releasesWithoutHealth" 2 none).loadingHealth = true
    ∧ (handleRequestSuccess (dualStart 0 false) "releasesWithHealth" 1 none).remainingRequests = 1
    ∧ (handleRequestSuccess
        (handleRequestSuccess (dualStart 0 false) "releasesWithHealth" 1 none)
        "releasesWithoutHealth" 2 none).releases = 1 := by
  decide

/-- Claim C1 (amended): the payload of a response is committed as the
authoritative release state iff the response is the health-bearing one
or, counting this arrival as handled, exactly one request of the
navigation is still outstanding (i.e. the response is the first of the
two concurrent requests); a committed state has the loading and
reloading flags cleared, and loadingHealth set iff the committed
response is the list-only one. -/
theorem onRequestSuccess_commit_iff {α : Type} (st : ReleasesState α)
    (stateKey : String) (data : α) (link : Option String)
    (hfresh : data ≠ st.releases) :
    ((handleRequestSuccess st stateKey data link).releases = data ↔
      (stateKey = "releasesWithHealth" ∨ st.remainingRequests - 1 = 1))
    ∧ ((handleRequestSuccess st stateKey data link).releases = data →
        (handleRequestSuccess st stateKey data link).loading = false
        ∧ (handleRequestSuccess st stateKey data link).reloading = false
        ∧ ((handleRequestSuccess st stateKey data link).loadingHealth = true ↔
            stateKey = "releasesWithoutHealth")) := by
  unfold handleRequestSuccess onRequestSuccess
  by_cases hguard : stateKey = "releasesWithHealth" ∨ st.remainingRequests - 1 = 1
  · rw [if_pos (by simpa using hguard)]
    refine ⟨⟨fun _ => hguard, fun _ => rfl⟩, fun _ => ⟨rfl, rfl, ?_⟩⟩
    simp
  · rw [if_neg (by simpa using hguard)]
    constructor
    · constructor
      · intro h
        exact absurd h.symm hfresh
      · intro h
        exact absurd h hguard
    · intro h
      exact absurd h.symm hfresh

/-- Witness for the amended claim C1 at a concrete input: the list-only
response arriving first in a dual-request navigation. -/
theorem onRequestSuccess_commit_iff_instance :
    ((2 : Nat) ≠ (dualStart (α := Nat) 0 false).releases)
    ∧ (((handleRequestSuccess (dualStart (α := Nat) 0 false)
          "releasesWithoutHealth" 2 none).releases = 2 ↔
        ("releasesWithoutHealth" = "releasesWithHealth"
          ∨ (dualStart (α := Nat) 0 false).remainingRequests - 1 = 1))
      ∧ ((handleRequestSuccess (dualStart (α := Nat) 0 false)
            "releasesWithoutHealth" 2 none).releases = 2 →
          (handleRequestSuccess (dualStart (α := Nat) 0 false)
            "releasesWithoutHealth" 2 none).loading = false
          ∧ (handleRequestSuccess (dualStart (α := Nat) 0 false)
              "releasesWithoutHealth" 2 none).reloading = false
          ∧ ((handleRequestSuccess (dualStart (α := Nat) 0 false)
                "releasesWithoutHealth" 2 none).loadingHealth = true ↔
              "releasesWithoutHealth" = "releasesWithoutHealth"))) :=
  ⟨by decide,
    onRequestSuccess_commit_iff (dualStart (α := Nat) 0 false)
      "releasesWithoutHealth" 2 none (by decide)⟩

/-- Claim C2: for sort key "date" (two concurrent requests), the final
committed state after both responses is the health payload with
loadingHealth = false, identically for both arrival orders; the
health-first order commits on the health arrival and the later list-only
response does not overwrite any committed observable; the list-first
order commits provisionally (payload with loadingHealth = true and
loading cleared) and the health arrival then commits the final state. -/
theorem releasesList_dual_fetch_order_independent {α : Type} (d0 dh dl : α)
    (lh0 : Bool) (lkh lkl : Option String) :
    (handleRequestSuccess
        (handleRequestSuccess (dualStart d0 lh0) "releasesWithHealth" dh lkh)
        "releasesWithoutHealth" dl lkl =
      handleRequestSuccess
        (handleRequestSuccess (dualStart d0 lh0) "releasesWithoutHealth" dl lkl)
        "releasesWithHealth" dh lkh)
    ∧ (handleRequestSuccess
        (handleRequestSuccess (dualStart d0 lh0) "releasesWithHealth" dh lkh)
        "releasesWithoutHealth" dl lkl).releases = dh
    ∧ (handleRequestSuccess
        (handleRequestSuccess (dualStart d0 lh0) "releasesWithHealth" dh lkh)
        "releasesWithoutHealth" dl lkl).loadingHealth = false
    ∧ (handleRequestSuccess
        (handleRequestSuccess (dualStart d0 lh0) "releasesWithHealth" dh lkh)
        "releasesWithoutHealth" dl lkl).loading = false
    ∧ (handleRequestSuccess (dualStart d0 lh0) "releasesWithHealth" dh lkh).releases = dh
    ∧ (handleRequestSuccess (dualStart d0 lh0) "releasesWithHealth" dh lkh).loadingHealth
        = false
    ∧ (handleRequestSuccess
        (handleRequestSuccess (dualStart d0 lh0) "releasesWithHealth" dh lkh)
        "releasesWithoutHealth" dl lkl).releases =
      (handleRequestSuccess (dualStart d0 lh0) "releasesWithHealth" dh lkh).releases
    ∧ (handleRequestSuccess
        (handleRequestSuccess (dualStart d0 lh0) "releasesWithHealth" dh lkh)
        "releasesWithoutHealth" dl lkl).loadingHealth =
      (handleRequestSuccess (dualStart d0 lh0) "releasesWithHealth" dh lkh).loadingHealth
    ∧ (handleRequestSuccess
        (handleRequestSuccess (dualStart d0 lh0) "releasesWithHealth" dh lkh)
        "releasesWithoutHealth" dl lkl).releasesPageLinks =
      (handleRequestSuccess (dualStart d0 lh0) "releasesWithHealth" dh lkh).releasesPageLinks
    ∧ (handleRequestSuccess (dualStart d0 lh0) "releasesWithoutHealth" dl lkl).releases = dl
    ∧ (handleRequestSuccess (dualStart d0 lh0) "releasesWithoutHealth" dl lkl).loadingHealth
        = true
    ∧ (handleRequestSuccess (dualStart d0 lh0) "releasesWithoutHealth" dl lkl).loading
        = false := by
  refine ⟨rfl, rfl, rfl, rfl, rfl, rfl, rfl, rfl, rfl, rfl, rfl, rfl⟩

/-- Claim C3: for a sort key other than "date" the loader issues exactly
one request — the combined releasesWithHealth request with health=1 and
flatten=1 — and any releasesWithHealth response commits its payload
unconditionally (the guard holds by its state key alone, whatever the
outstanding-request count); for sort key "date" exactly two requests are
issued, the second being the list-only variant with health=0. -/
theorem releasesList_getEndpoints_requests {α : Type} (orgSlug s : String)
    (st : ReleasesState α) (data : α) (link : Option String)
    (hs : s ≠ "date") :
    getEndpoints orgSlug (some s) =
      [⟨"releasesWithHealth", "/organizations/" ++ orgSlug ++ "/releases/",
        ⟨25, 1, 1⟩⟩]
    ∧ (handleRequestSuccess st "releasesWithHealth" data link).releases = data
    ∧ (handleRequestSuccess st "releasesWithHealth" data link).loading = false
    ∧ (handleRequestSuccess st "releasesWithHealth" data link).loadingHealth = false
    ∧ getEndpoints orgSlug (some "date") =
        [⟨"releasesWithHealth", "/organizations/" ++ orgSlug ++ "/releases/",
          ⟨25, 1, 0⟩⟩,
         ⟨"releasesWithoutHealth", "/organizations/" ++ orgSlug ++ "/releases/",
          ⟨25, 0, 0⟩⟩] := by
  refine ⟨?_, ?_, ?_, ?_, rfl⟩
  · simp [getEndpoints, getSort, hs]
  · simp [handleRequestSuccess, onRequestSuccess]
  · simp [handleRequestSuccess, onRequestSuccess]
  · simp [handleRequestSuccess, onRequestSuccess]

/-- Witness for claim C3 at a concrete input: sorting by sessions. -/
theorem releasesList_getEndpoints_requests_instance :
    (("sessions" : String) ≠ "date")
    ∧ (getEndpoints "org" (some "sessions") =
        [⟨"releasesWithHealth", "/organizations/" ++ "org" ++ "/releases/",
          ⟨25, 1, 1⟩⟩]
      ∧ (handleRequestSuccess (dualStart (α := Nat) 0 false)
          "releasesWithHealth" 7 none).releases = 7
      ∧ (handleRequestSuccess (dualStart (α := Nat) 0 false)
          "releasesWithHealth" 7 none).loading = false
      ∧ (handleRequestSuccess (dualStart (α := Nat) 0 false)
          "releasesWithHealth" 7 none).loadingHealth = false
      ∧ getEndpoints "org" (some "date") =
          [⟨"releasesWithHealth", "/organizations/" ++ "org" ++ "/releases/",
            ⟨25, 1, 0⟩⟩,
           ⟨"releasesWithoutHealth", "/organizations/" ++ "org" ++ "/releases/",
            ⟨25, 0, 0⟩⟩]) :=
  ⟨by decide,
    releasesList_getEndpoints_requests "org" "sessions"
      (dualStart (α := Nat) 0 false) 7 none (by decide)⟩

/-! ### Rendering of the release list body (ReleasesList) -/

/-- A Release payload restricted to the fields renderInnerBody reads:
the version and the project slugs (the card key uses projects[0].slug). -/
structure Release where
  version : String
  projects : List String
deriving DecidableEq, Repr

/-- The release array hardcoded inline in renderInnerBody (shadowing the
component state; versions and project slugs transcribed from the source
in order, the remaining per-release fields are not read by the render
path). -/
def hardcodedReleases : List Release :=
  [⟨"Premiere Pro@14.7.0+8", ["dva-premierepro"]⟩,
   ⟨"Premiere Pro (Beta)@14.7.0+8", ["dva-premierepro"]⟩,
   ⟨"Premiere Pro@14.6.0+49", ["dva-premierepro"]⟩,
   ⟨"Premiere Pro (Beta)@14.7.0+7", ["dva-premierepro"]⟩,
   ⟨"Premiere Pro (Beta)@14.7.0+6", ["dva-premierepro"]⟩,
   ⟨"Premiere Pro@14.7.0+6", ["dva-premierepro"]⟩,
   ⟨"Premiere Pro@14.6.0+48", ["dva-premierepro"]⟩,
   ⟨"Premiere Pro@14.7.0+1", ["dva-premierepro"]⟩,
   ⟨"Premiere Pro (Beta)@14.7.0+5", ["dva-premierepro"]⟩,
   ⟨"14.1.0", ["dva-premierepro"]⟩,
   ⟨"Premiere Pro@14.7.0+4", ["dva-premierepro"]⟩,
   ⟨"Premiere Pro (Beta)@14.7.0+3", ["dva-premierepro"]⟩,
   ⟨"Premiere Pro (Beta)@14.7.0+4", ["dva-premierepro"]⟩,
   ⟨"Premiere Pro@14.7.0+3", ["dva-premierepro"]⟩,
   ⟨"Premiere Pro (Beta)@14.7.0+2", ["dva-premierepro"]⟩,
   ⟨"Premiere Pro@14.6.0+47", ["dva-premierepro"]⟩,
   ⟨"Premiere Pro (Beta)@14.7.0+1", ["dva-premierepro"]⟩,
   ⟨"Premiere Pro@14.6.0+46", ["dva-premierepro"]⟩,
   ⟨"Premiere Pro (Beta)@14.6.0+46", ["dva-premierepro"]⟩,
   ⟨"14.0.3", ["dva-premierepro"]⟩,
   ⟨"Premiere Pro@14.3.0+38", ["dva-premierepro"]⟩,
   ⟨"Premiere Pro@14.6.0+45", ["dva-premierepro"]⟩,
   ⟨"Premiere Pro@1.5.34+48", ["dva-premierepro"]⟩,
   ⟨"Premiere Pro (Beta)@14.6.0+45", ["dva-premierepro"]⟩,
   ⟨"Premiere Pro (Beta)@14.6.0+44", ["dva-premierepro"]⟩]

/-- The props renderInnerBody passes to each ReleaseCard. -/
structure CardProps where
  key : String
  version : String
  reloading : Bool
  showHealthPlaceholders : Bool
deriving DecidableEq, Repr

/-- The distinguishable bodies renderInnerBody/renderEmptyMessage can
produce. The exact localized texts are abstracted into constructors; in
particular noMatchMessage q stands for the string
"There are no releases that match: <q>." (with the query in single
quotes), noActiveUsersMessage for the users_24h empty state,
noDataInPeriodMessage for the stats-period empty state built with the
external getRelativeSummary helper, noReleasesMessage for the plain
empty state, and releaseLanding for the ReleaseLanding page. -/
inductive Rendered
  | loadingIndicator
  | noMatchMessage (query : String)
  | noActiveUsersMessage
  | noDataInPeriodMessage (statsPeriod : Option String)
  | noReleasesMessage
  | releaseLanding
  | releaseCards (cards : List CardProps)
deriving DecidableEq, Repr

/-- ReleasesList.shouldShowLoadingIndicator:
(loading && !reloading) || (loading && !releases?.length). -/
def shouldShowLoadingIndicator (st : ReleasesState (List Release)) : Bool :=
  (st.loading && !st.reloading) || (st.loading && st.releases.isEmpty)

/-- ReleasesList.renderEmptyMessage: the search-query no-match message
when a non-empty search query is active; then the users_24h message;
then, for non-date sorts, the stats-period message; then the plain
no-releases message when a stats period other than 14d is set; otherwise
the landing page. -/
def renderEmptyMessage (searchQuery : Option String) (activeSort : String)
    (statsPeriod : Option String) : Rendered :=
  let afterSearch :=
    if activeSort = "users_24h" then Rendered.noActiveUsersMessage
    else if activeSort ≠ "date" then Rendered.noDataInPeriodMessage statsPeriod
    else if statsPeriod.isSome && statsPeriod != some "14d" then
      Rendered.noReleasesMessage
    else Rendered.releaseLanding
  match searchQuery with
  | some q => if q.length ≠ 0 then Rendered.noMatchMessage q else afterSearch
  | none => afterSearch

/-- The card list renderInnerBody builds from the hardcoded release
array (key from version and first project slug, placeholders controlled
by the loadingHealth flag). -/
def releaseCardsOf (st : ReleasesState (List Release)) : List CardProps :=
  hardcodedReleases.map fun release =>
    { key := release.version ++ "-" ++ (release.projects.head?.getD "")
      version := release.version
      reloading := st.reloading
      showHealthPlaceholders := st.loadingHealth }

/-- ReleasesList.renderInnerBody, transcribed as in the source: the
loading indicator while loading; otherwise a local `releases` constant
bound to the hardcoded array — NOT the committed state — whose emptiness
decides between renderEmptyMessage and the card list. -/
def renderInnerBody (st : ReleasesState (List Release)) (searchQuery : Option String)
    (activeSort : String) (statsPeriod : Option String) : Rendered :=
  if shouldShowLoadingIndicator st then Rendered.loadingIndicator
  else
    let releases := hardcodedReleases
    if releases.isEmpty then renderEmptyMessage searchQuery activeSort statsPeriod
    else Rendered.releaseCards (releaseCardsOf st)

/-- A settled state with an empty committed release list. -/
def emptyListState : ReleasesState (List Release) :=
  { releases := []
    loadingHealth := false
    loading := false
    reloading := false
    releasesPageLinks := none
    remainingRequests := 0 }

/-- Claim C4 is what the component evidently intends (renderEmptyMessage
returns exactly the no-match message for a non-empty query) but the code
violates it: renderInnerBody binds `releases` to a hardcoded non-empty
literal instead of the committed state, so with an empty committed list
and the active search query "foo" it renders the hardcoded release
cards and the no-match empty state is unreachable. -/
theorem renderInnerBody_ignores_committed_state :
    emptyListState.releases = []
    ∧ shouldShowLoadingIndicator emptyListState = false
    ∧ renderInnerBody emptyListState (some "foo") "date" none =
        Rendered.releaseCards (releaseCardsOf emptyListState)
    ∧ renderEmptyMessage (some "foo") "date" none = Rendered.noMatchMessage "foo"
    ∧ Rendered.releaseCards (releaseCardsOf emptyListState) ≠
        Rendered.noMatchMessage "foo" :=
  ⟨rfl, rfl, rfl, rfl, fun h => Rendered.noConfusion h⟩

end SentryReleases
